import Mathlib

/-!
Verification of the DKP bot's ledger, redemption and auction-settlement core
(`dkp_discord_bot.py`) against its natural-language specification.

The relational state is embedded shallowly:
* the `users` table is a list of `(discord_id, dkp)` pairs (usernames and
  timestamps are irrelevant to the verified properties); `dkp` is a Postgres
  `INTEGER`, modelled as `Int`;
* `pins`, `pin_redemptions`, `loot_auctions`, `bids` and `loot_awards` keep
  exactly the columns the verified operations read or write;
* SQL `ORDER BY` is `List.insertionSort` with the corresponding relation
  (Postgres leaves the order of rows equal under the sort key unspecified;
  the stable sort realises one admissible order, over the physical row order);
* timestamps are abstract `Nat` instants, passed in as `now` where the code
  calls `now()`/`utcnow()`.
-/

namespace DKP

/-- Auction settlement style: `style IN ('blind','fixed','zerosum')`. -/
inductive LootStyle where
  | blind
  | fixed
  | zerosum
deriving DecidableEq

/-- Auction status: `status IN ('open','closed','cancelled')`. -/
inductive AStatus where
  | «open»
  | closed
  | cancelled
deriving DecidableEq

/-- A row of `loot_auctions` (columns used by settlement and bidding). -/
structure Auction where
  id : Nat
  minBid : Nat
  increment : Nat
  style : LootStyle
  status : AStatus
deriving DecidableEq

/-- A row of `bids`. All bids belong to the one auction of the modelled
channel, so `auction_id` is omitted. `amount >= 0` (schema CHECK) makes the
amount a `Nat`. -/
structure Bid where
  id : Nat
  userId : Nat
  amount : Nat
  createdAt : Nat
deriving DecidableEq

/-- A row of `loot_awards` (the settlement record; `auction_id` is UNIQUE). -/
structure Award where
  auctionId : Nat
  winnerId : Nat
  amount : Nat
deriving DecidableEq

/-- `SELECT dkp FROM users WHERE discord_id=$1`. A bidder/redeemer always has
a `users` row (`ensure_user` runs first and the bids table has a foreign key
to `users`), so the `none` branch is unreachable on well-formed states; it
defaults to 0. -/
def getDkp (users : List (Nat × Int)) (uid : Nat) : Int :=
  match users with
  | [] => 0
  | p :: t => if p.1 = uid then p.2 else getDkp t uid

/-- `UPDATE users SET dkp = dkp + delta WHERE discord_id=uid` (a debit passes
a negative `delta`). -/
def updateDkp (users : List (Nat × Int)) (uid : Nat) (delta : Int) : List (Nat × Int) :=
  users.map (fun p => if p.1 = uid then (p.1, p.2 + delta) else p)

/-- Total DKP held across the users table. -/
def totalDkp (users : List (Nat × Int)) : Int :=
  (users.map (fun p => p.2)).sum

/-- `ensure_user`: `INSERT ... ON CONFLICT (discord_id) DO UPDATE` — the
update only refreshes the username, so on the balance table it either is the
identity or inserts a fresh row with the default balance 0. -/
def ensureUser (users : List (Nat × Int)) (uid : Nat) : List (Nat × Int) :=
  if uid ∈ users.map Prod.fst then users else users ++ [(uid, 0)]

/-- `ORDER BY amount DESC, created_at ASC`: `b` may be listed no later than
`c`. -/
def bidLE (b c : Bid) : Prop :=
  c.amount < b.amount ∨ (b.amount = c.amount ∧ b.createdAt ≤ c.createdAt)

instance : DecidableRel bidLE := fun b c => by
  unfold bidLE; infer_instance

/-- `SELECT * FROM bids WHERE auction_id=$1 ORDER BY amount DESC, created_at ASC`. -/
def sortBids (l : List Bid) : List Bid :=
  List.insertionSort bidLE l

/-- Settlement amount for a candidate winning bid: `min_bid` under the
`fixed` style, otherwise the candidate's own bid amount. -/
def amtOf (a : Auction) (b : Bid) : Nat :=
  if a.style = .fixed then a.minBid else b.amount

/-- Result message of `resolve_auction` (the returned summary string,
abstracted to its data content).
`already st` is "Auction #id already {status}";
`noBids` is "closed: no bids" / "closed: no takers";
`settled w amt redist` is the winner summary, where `redist = some (share, n)`
records the "redistributed {share} DKP to {n} bidders" suffix. -/
inductive Msg where
  | already (st : AStatus)
  | noBids
  | settled (winnerId : Nat) (amount : Nat) (redist : Option (Nat × Nat))
deriving DecidableEq

/-- Outcome of `resolve_auction` on the tables it touches. -/
structure ResolveOut where
  status : AStatus
  bids : List Bid
  users : List (Nat × Int)
  awards : List Award
  msg : Msg
deriving DecidableEq

/-- `for b in losers: UPDATE users SET dkp = dkp + share WHERE discord_id=b.user_id`. -/
def creditEach (users : List (Nat × Int)) (ls : List Bid) (share : Int) : List (Nat × Int) :=
  match ls with
  | [] => users
  | b :: t => creditEach (updateDkp users b.userId share) t share

/-- The settling branch of `resolve_auction`: the candidate `win` at the head
of the (sorted) remaining bid list `win :: rest` passed the affordability
re-check.  Debit the winner, close the auction, insert the `loot_awards` row
(`ON CONFLICT (auction_id) DO NOTHING`), and under `zerosum` credit every
other bidder on the current bid list `amount // len(losers)` (skipping the
updates when the floor share is 0, as the code does). -/
def settleWin (a : Auction) (users : List (Nat × Int)) (awards : List Award)
    (win : Bid) (rest : List Bid) : ResolveOut :=
  let amount := amtOf a win
  let users1 := updateDkp users win.userId (-(amount : Int))
  let awards1 :=
    if awards.any (fun aw => aw.auctionId = a.id) then awards
    else awards ++ [⟨a.id, win.userId, amount⟩]
  let losers := (win :: rest).filter (fun b => b.userId ≠ win.userId)
  let users2 :=
    if a.style = .zerosum then
      if losers.length ≠ 0 ∧ amount / losers.length > 0 then
        creditEach users1 losers ((amount / losers.length : Nat) : Int)
      else users1
    else users1
  let redist :=
    if a.style = .zerosum ∧ losers.length ≠ 0 then
      some (amount / losers.length, losers.length)
    else none
  ⟨.closed, win :: rest, users2, awards1, .settled win.userId amount redist⟩

/-- The retry loop of `resolve_auction` over the sorted bid list: with no
bids left, close with no settlement record; otherwise re-read the candidate
winner's balance under lock, and if it no longer covers the settlement
amount, `DELETE` that bid and retry over the remaining bids. -/
def resolveSorted (a : Auction) (users : List (Nat × Int)) (awards : List Award) :
    List Bid → ResolveOut
  | [] => ⟨.closed, [], users, awards, .noBids⟩
  | win :: rest =>
    if getDkp users win.userId < (amtOf a win : Int) then
      resolveSorted a users awards rest
    else
      settleWin a users awards win rest

/-- Fuel-indexed mirror of `resolveSorted`, consuming one unit of fuel per
discard-and-retry step; used to state the termination bound of the
settlement recursion. -/
def resolveSortedFuel (a : Auction) (users : List (Nat × Int)) (awards : List Award) :
    Nat → List Bid → Option ResolveOut
  | 0, _ => none
  | _ + 1, [] => some ⟨.closed, [], users, awards, .noBids⟩
  | fuel + 1, win :: rest =>
    if getDkp users win.userId < (amtOf a win : Int) then
      resolveSortedFuel a users awards fuel rest
    else
      some (settleWin a users awards win rest)

/-- Full database state touched by the contest engine. `nextBidId` models
the `bids` BIGSERIAL sequence. -/
structure AState where
  auction : Auction
  bids : List Bid
  users : List (Nat × Int)
  awards : List Award
  nextBidId : Nat
deriving DecidableEq

/-- `resolve_auction(conn, a)`: a non-`open` auction returns immediately with
no mutation; otherwise run the retry loop over the bids sorted by
`amount DESC, created_at ASC`. -/
def resolve_auction (s : AState) : AState × Msg :=
  if s.auction.status ≠ .«open» then
    (s, .already s.auction.status)
  else
    let r := resolveSorted s.auction s.users s.awards (sortBids s.bids)
    (⟨{ s.auction with status := r.status }, r.bids, r.users, r.awards, s.nextBidId⟩, r.msg)

/-- Reply of the `/bid` command. `claimed m` is the `fixed`-style success
("Claimed!", publicly announcing the settlement summary `m`). -/
inductive BidMsg where
  | noAuction
  | insufficient (need : Nat)
  | alreadyClaimed
  | claimed (result : Msg)
  | bidTooLow (minBid increment : Nat)
  | insufficientFunds
  | accepted
deriving DecidableEq

/-- `INSERT INTO bids ... ON CONFLICT (auction_id, user_id) DO UPDATE SET
amount = EXCLUDED.amount, created_at = now()`. -/
def upsertBid (bids : List Bid) (newId uid amount now : Nat) : List Bid :=
  if bids.any (fun b => b.userId = uid) then
    bids.map (fun b => if b.userId = uid then { b with amount := amount, createdAt := now } else b)
  else
    bids ++ [⟨newId, uid, amount, now⟩]

/-- The `/bid` command body, after `ensure_user`: look up the open auction of
the channel; under `fixed` run the first-come claim path (balance check, then
already-claimed check, then insert at `min_bid` and resolve immediately);
under `blind`/`zerosum` validate the amount against `min_bid`/`increment`,
soft-check the balance, and upsert the bid. -/
def bid (s : AState) (uid : Nat) (amount : Nat) (now : Nat) : AState × BidMsg :=
  let users := ensureUser s.users uid
  let s0 : AState := { s with users := users }
  if s0.auction.status ≠ .«open» then
    (s0, .noAuction)
  else
    match s0.auction.style with
    | .fixed =>
      let cost := s0.auction.minBid
      if getDkp users uid < (cost : Int) then
        (s0, .insufficient cost)
      else if s0.bids.length > 0 then
        (s0, .alreadyClaimed)
      else
        let s1 : AState := { s0 with
          bids := s0.bids ++ [⟨s0.nextBidId, uid, cost, now⟩],
          nextBidId := s0.nextBidId + 1 }
        let r := resolve_auction s1
        (r.1, .claimed r.2)
    | _ =>
      let minBid := s0.auction.minBid
      let inc := s0.auction.increment
      if amount < minBid ∨ (amount - minBid) % inc ≠ 0 then
        (s0, .bidTooLow minBid inc)
      else if getDkp users uid < (amount : Int) then
        (s0, .insufficientFunds)
      else
        ({ s0 with
            bids := upsertBid s0.bids s0.nextBidId uid amount now,
            nextBidId := if s0.bids.any (fun b => b.userId = uid) then s0.nextBidId else s0.nextBidId + 1 },
          .accepted)

/-- ASCII lower-casing of one character (Python `str.lower` / SQL `LOWER`
restricted to the ASCII codes appearing in names and pin codes). -/
def lowerChar (c : Char) : Char :=
  if 65 ≤ c.toNat ∧ c.toNat ≤ 90 then Char.ofNat (c.toNat + 32) else c

/-- ASCII upper-casing of one character (Python `str.upper`). -/
def upperChar (c : Char) : Char :=
  if 97 ≤ c.toNat ∧ c.toNat ≤ 122 then Char.ofNat (c.toNat - 32) else c

/-- `LOWER($1)` / `str.lower`, over the string's character list. -/
def pyLower (s : String) : String := ⟨s.data.map lowerChar⟩

/-- `str.upper`, over the string's character list. -/
def pyUpper (s : String) : String := ⟨s.data.map upperChar⟩

/-- `str.strip()`: drop leading and trailing whitespace. -/
def pyStrip (s : String) : String :=
  ⟨((s.data.dropWhile (fun c => c.isWhitespace)).reverse.dropWhile
      (fun c => c.isWhitespace)).reverse⟩

/-- A row of `pins`. `id` models the UUID primary key; `event_type_id` and
`created_by` are irrelevant to the verified properties and omitted. -/
structure Pin where
  id : Nat
  code : String
  points : Nat
  expiresAt : Nat
  active : Bool
deriving DecidableEq

/-- Database state touched by the redemption-code manager: balances, `pins`,
and `pin_redemptions` as `(pin_id, user_id)` pairs (`UNIQUE (pin_id, user_id)`). -/
structure RState where
  users : List (Nat × Int)
  pins : List Pin
  redemptions : List (Nat × Nat)
deriving DecidableEq

/-- Reply of `/redeem`. `genericError` is the blanket exception handler's
"Something went wrong. Try again." -/
inductive RedeemMsg where
  | invalidOrRevoked
  | expired
  | alreadyRedeemed
  | redeemed (points : Nat)
  | genericError
deriving DecidableEq

/-- The pre-transaction checks of `/redeem`, on the normalised code: fetch
the pin row; "Invalid or revoked PIN." when no row matches or the row is
inactive; "This PIN has expired." when `expires_at < utcnow()`. -/
def redeemChecks (s : RState) (code : String) (now : Nat) : Except RedeemMsg Pin :=
  match s.pins.find? (fun p => p.code == code) with
  | none => .error .invalidOrRevoked
  | some p =>
    if !p.active then .error .invalidOrRevoked
    else if p.expiresAt < now then .error .expired
    else .ok p

/-- The redemption transaction body.  Its `SELECT 1 FROM pin_redemptions`
reads the transaction's snapshot `snap`; its writes apply to the committed
state `cur`.  When the `(pin_id, user_id)` pair is absent from the snapshot
but present in the committed state (a concurrent redemption committed in
between), the `INSERT` raises the uniqueness violation, the transaction —
credit included — rolls back, and the blanket `except` handler reports the
generic failure.  In a run without interference `snap = cur` and that branch
is unreachable. -/
def redeemTxn (snap cur : RState) (uid : Nat) (p : Pin) : RState × RedeemMsg :=
  if snap.redemptions.any (fun r => r.1 = p.id ∧ r.2 = uid) then
    (cur, .alreadyRedeemed)
  else if cur.redemptions.any (fun r => r.1 = p.id ∧ r.2 = uid) then
    (cur, .genericError)
  else
    ({ cur with
        users := updateDkp cur.users uid (p.points : Int),
        redemptions := cur.redemptions ++ [(p.id, uid)] },
      .redeemed p.points)

/-- `/redeem` without interference: normalise the code
(`code.strip().upper()`), `ensure_user`, run the checks, then the
transaction against the current state. -/
def redeem (s : RState) (uid : Nat) (rawCode : String) (now : Nat) : RState × RedeemMsg :=
  let code := pyUpper (pyStrip rawCode)
  let s0 : RState := { s with users := ensureUser s.users uid }
  match redeemChecks s0 code now with
  | .error m => (s0, m)
  | .ok p => redeemTxn s0 s0 uid p

/-- Two simultaneous `/redeem` calls by the same participant on the same
code: both pass the pre-checks and take their transaction snapshot of
`pin_redemptions` before either commits; the transactions then commit in
order, the second finding the pair already committed at `INSERT` time.
Returns the final state and both replies. -/
def redeemRace (s : RState) (uid : Nat) (rawCode : String) (now : Nat) :
    RState × RedeemMsg × RedeemMsg :=
  let code := pyUpper (pyStrip rawCode)
  let s0 : RState := { s with users := ensureUser s.users uid }
  match redeemChecks s0 code now with
  | .error m => (s0, m, m)
  | .ok p =>
    let r1 := redeemTxn s0 s0 uid p
    let r2 := redeemTxn s0 r1.1 uid p
    (r2.1, r1.2, r2.2)

/-- A row of `event_types`. -/
structure EventType where
  id : Nat
  name : String
  points : Nat
  active : Bool
deriving DecidableEq

/-- Reply of `/pin create`. -/
inductive PinMsg where
  | eventTypeNotFound
  | duplicateCode
  | created (code : String) (points : Nat) (expiresAt : Nat)
deriving DecidableEq

/-- The pin code stored by `/pin create`: the stripped, upper-cased manual
code when one was supplied, else the randomly generated one (`autoCode`,
the random oracle's output). -/
def pinCodeOf (manualCode : Option String) (autoCode : String) : String :=
  match manualCode with
  | some c => pyUpper (pyStrip c)
  | none => autoCode

/-- The pin's point value: the override when supplied, else the event
type's default. -/
def pointsOf (pointsOverride : Option Nat) (et : EventType) : Nat :=
  match pointsOverride with
  | some o => o
  | none => et.points

/-- `/pin create`: look the event type up by `name=LOWER($1) OR name=$1`
(no condition on its `active` flag);
`expires_at = utcnow() + timedelta(minutes=duration)` with time counted in
minutes; a code collision (UNIQUE violation on `pins.code`) aborts the
insert. -/
def pin_create (ets : List EventType) (pins : List Pin) (nextPinId : Nat)
    (eventName : String) (durationMinutes : Nat) (manualCode : Option String)
    (pointsOverride : Option Nat) (autoCode : String) (now : Nat) :
    List Pin × PinMsg :=
  match ets.find? (fun et => et.name == pyLower eventName || et.name == eventName) with
  | none => (pins, .eventTypeNotFound)
  | some et =>
    let code := pinCodeOf manualCode autoCode
    let expires := now + durationMinutes
    let pts := pointsOf pointsOverride et
    if pins.any (fun p => p.code == code) then
      (pins, .duplicateCode)
    else
      (pins ++ [⟨nextPinId, code, pts, expires, true⟩], .created code pts expires)

/-- A row of `users` as read by `/leaderboard`, in physical table order
(which Postgres does not tie to `created_at`: updates rewrite rows). -/
structure UserRow where
  discordId : Nat
  username : String
  dkp : Int
  createdAt : Nat
deriving DecidableEq

/-- `ORDER BY dkp DESC` — the only sort key of the leaderboard query. -/
def rowLE (a b : UserRow) : Prop := b.dkp ≤ a.dkp

instance : DecidableRel rowLE := fun a b => by
  unfold rowLE; infer_instance

instance : IsTotal UserRow rowLE := ⟨fun a b => le_total b.dkp a.dkp⟩

instance : IsTrans UserRow rowLE := ⟨fun _ _ _ h h' => le_trans h' h⟩

/-- `SELECT username, dkp FROM users ORDER BY dkp DESC NULLS LAST LIMIT 10`
(`dkp` is NOT NULL, so NULLS LAST is vacuous); rows equal under the sort key
come out in an order the query does not constrain, realised here by the
stable sort over physical order. -/
def leaderboard (rows : List UserRow) : List UserRow :=
  (List.insertionSort rowLE rows).take 10

/-- The spec's ordering for the leaderboard, stated from its words: balance
strictly greater, or equal balance and arrived no later (`created_at`). -/
def arrivalRel (a b : UserRow) : Prop :=
  b.dkp < a.dkp ∨ (a.dkp = b.dkp ∧ a.createdAt ≤ b.createdAt)

instance : DecidableRel arrivalRel := fun a b => by
  unfold arrivalRel; infer_instance

/-- The spec's tie-break discipline for C9: balances descending with ties
broken by arrival order. -/
def arrivalTieBreak (l : List UserRow) : Prop :=
  l.Pairwise arrivalRel

instance (l : List UserRow) : Decidable (arrivalTieBreak l) := by
  unfold arrivalTieBreak; infer_instance

/-- The spec's words for C8: the reply to closing an already-closed contest
carries the existing settlement record (winner and amount). -/
def reportsRecord (m : Msg) (aw : Award) : Prop :=
  ∃ r, m = .settled aw.winnerId aw.amount r

/-- Spec §8's sealed-contest scenario: `minBid=50, increment=10`; bids
A(id 1):100, B(id 2):80, C(id 3):120; balances A:100, B:80, C:0. -/
def exC1 : AState :=
  ⟨⟨1, 50, 10, .blind, .«open»⟩,
   [⟨1, 1, 100, 1⟩, ⟨2, 2, 80, 2⟩, ⟨3, 3, 120, 3⟩],
   [(1, 100), (2, 80), (3, 0)], [], 4⟩

/-- Redemption state: one active unexpired pin "ABC" worth 10; user 7 holds
5 DKP and has not redeemed it. -/
def exC2 : RState := ⟨[(7, 5)], [⟨1, "ABC", 10, 100, true⟩], []⟩

/-- Zero-sum contest: bids 100/80/60 by users 1/2/3, all affordable. -/
def exZS : AState :=
  ⟨⟨1, 10, 10, .zerosum, .«open»⟩,
   [⟨1, 1, 100, 1⟩, ⟨2, 2, 80, 2⟩, ⟨3, 3, 60, 3⟩],
   [(1, 100), (2, 80), (3, 60)], [], 4⟩

/-- The state `resolve_auction` reaches from `exZS`: user 1 wins at 100,
users 2 and 3 each receive the floor share 50. -/
def exZSout : AState :=
  ⟨⟨1, 10, 10, .zerosum, .closed⟩,
   [⟨1, 1, 100, 1⟩, ⟨2, 2, 80, 2⟩, ⟨3, 3, 60, 3⟩],
   [(1, 0), (2, 130), (3, 110)], [⟨1, 1, 100⟩], 4⟩

/-- Fixed-price contest (`minBid=30`) already claimed by user 1; user 2
holds no DKP. -/
def exC4 : AState :=
  ⟨⟨1, 30, 1, .fixed, .«open»⟩, [⟨1, 1, 30, 0⟩], [(1, 0), (2, 0)], [⟨1, 1, 30⟩], 2⟩

/-- Fixed-price contest (`minBid=30`), unclaimed; user 2 holds 50 DKP. -/
def exC4b : AState :=
  ⟨⟨1, 30, 1, .fixed, .«open»⟩, [], [(2, 50)], [], 1⟩

/-- Open blind contest (`minBid=50, increment=10`) with one bid of 60 by
user 3; users 3 and 4 hold 100 DKP each. -/
def exC5 : AState :=
  ⟨⟨1, 50, 10, .blind, .«open»⟩, [⟨1, 3, 60, 0⟩], [(3, 100), (4, 100)], [], 2⟩

/-- One event type, inactive. -/
def exC6ets : List EventType := [⟨1, "raid", 10, false⟩]

/-- Open blind contest where no bidder can afford their own bid. -/
def exC7 : AState :=
  ⟨⟨1, 50, 10, .blind, .«open»⟩, [⟨1, 1, 60, 0⟩, ⟨2, 2, 50, 1⟩], [(1, 0), (2, 0)], [], 3⟩

/-- A contest already closed, with its settlement record written. -/
def exC8 : AState := ⟨⟨1, 50, 10, .blind, .closed⟩, [], [(7, 100)], [⟨1, 7, 100⟩], 5⟩

/-- Two users with equal balances whose physical row order is the reverse of
their arrival order (row rewrites on update make this reachable). -/
def exC9 : List UserRow := [⟨1, "a", 5, 10⟩, ⟨2, "b", 5, 1⟩]

/-- Redemption state for the precedence checks: pin "AAA" revoked and
expired; pin "BBB" active, expired, and already redeemed by user 7. -/
def exC10 : RState :=
  ⟨[(7, 0)], [⟨1, "AAA", 10, 5, false⟩, ⟨2, "BBB", 10, 5, true⟩], [(2, 7)]⟩

/-! ### Ledger lemmas -/

theorem getDkp_nil (uid : Nat) : getDkp [] uid = 0 := rfl

theorem getDkp_cons (p : Nat × Int) (t : List (Nat × Int)) (uid : Nat) :
    getDkp (p :: t) uid = if p.1 = uid then p.2 else getDkp t uid := rfl

theorem updateDkp_nil (uid : Nat) (δ : Int) : updateDkp [] uid δ = [] := rfl

theorem updateDkp_cons (p : Nat × Int) (t : List (Nat × Int)) (uid : Nat) (δ : Int) :
    updateDkp (p :: t) uid δ
      = (if p.1 = uid then (p.1, p.2 + δ) else p) :: updateDkp t uid δ := rfl

theorem totalDkp_cons (p : Nat × Int) (t : List (Nat × Int)) :
    totalDkp (p :: t) = p.2 + totalDkp t := by
  simp [totalDkp]

theorem getDkp_updateDkp_ne (users : List (Nat × Int)) (uid : Nat) (δ : Int) (x : Nat)
    (h : x ≠ uid) : getDkp (updateDkp users uid δ) x = getDkp users x := by
  induction users with
  | nil => rfl
  | cons p t ih =>
    rw [updateDkp_cons]
    by_cases h1 : p.1 = uid
    · have hx : ¬ ((p.1, p.2 + δ).1 = x) := fun e => h ((e.symm.trans h1).symm.symm ▸ rfl)
      have hx0 : ¬ (p.1 = x) := fun e => h (e.symm.trans h1)
      rw [if_pos h1, getDkp_cons, getDkp_cons, if_neg hx, if_neg hx0, ih]
    · rw [if_neg h1, getDkp_cons, getDkp_cons]
      by_cases h2 : p.1 = x
      · simp [h2]
      · simp [h2, ih]

theorem getDkp_updateDkp_self (users : List (Nat × Int)) (uid : Nat) (δ : Int)
    (h : uid ∈ users.map Prod.fst) :
    getDkp (updateDkp users uid δ) uid = getDkp users uid + δ := by
  induction users with
  | nil => simp at h
  | cons p t ih =>
    rw [updateDkp_cons]
    by_cases h1 : p.1 = uid
    · have h1' : (p.1, p.2 + δ).1 = uid := h1
      rw [if_pos h1, getDkp_cons, getDkp_cons, if_pos h1', if_pos h1]
    · simp only [List.map_cons, List.mem_cons] at h
      rcases h with h | h
      · exact absurd h.symm h1
      · rw [if_neg h1, getDkp_cons, getDkp_cons, if_neg h1, if_neg h1, ih h]

theorem keys_updateDkp (users : List (Nat × Int)) (uid : Nat) (δ : Int) :
    (updateDkp users uid δ).map Prod.fst = users.map Prod.fst := by
  induction users with
  | nil => rfl
  | cons p t ih =>
    rw [updateDkp_cons]
    by_cases h1 : p.1 = uid
    · rw [if_pos h1, List.map_cons, List.map_cons, ih]
    · rw [if_neg h1, List.map_cons, List.map_cons, ih]

theorem totalDkp_updateDkp (users : List (Nat × Int)) (uid : Nat) (δ : Int) :
    totalDkp (updateDkp users uid δ)
      = totalDkp users + δ * (users.countP (fun p => decide (p.1 = uid)) : Int) := by
  induction users with
  | nil => simp [totalDkp, updateDkp]
  | cons p t ih =>
    rw [updateDkp_cons, List.countP_cons]
    by_cases h1 : p.1 = uid
    · rw [if_pos h1, totalDkp_cons, totalDkp_cons, ih]
      simp [h1]
      ring
    · rw [if_neg h1, totalDkp_cons, totalDkp_cons, ih]
      simp [h1]
      ring

theorem countP_key_eq_one (users : List (Nat × Int)) (uid : Nat)
    (hnd : (users.map Prod.fst).Nodup) (hm : uid ∈ users.map Prod.fst) :
    users.countP (fun p => decide (p.1 = uid)) = 1 := by
  induction users with
  | nil => simp at hm
  | cons p t ih =>
    simp only [List.map_cons, List.nodup_cons] at hnd
    simp only [List.map_cons, List.mem_cons] at hm
    rw [List.countP_cons]
    by_cases h1 : p.1 = uid
    · have hnot : uid ∉ t.map Prod.fst := h1 ▸ hnd.1
      have hz : t.countP (fun p => decide (p.1 = uid)) = 0 := by
        rw [List.countP_eq_zero]
        intro q hq hdec
        exact hnot (List.mem_map.mpr ⟨q, hq, by simpa using hdec⟩)
      simp [h1, hz]
    · rcases hm with hm | hm
      · exact absurd hm.symm h1
      · simp [h1, ih hnd.2 hm]

theorem totalDkp_updateDkp_mem (users : List (Nat × Int)) (uid : Nat) (δ : Int)
    (hnd : (users.map Prod.fst).Nodup) (hm : uid ∈ users.map Prod.fst) :
    totalDkp (updateDkp users uid δ) = totalDkp users + δ := by
  rw [totalDkp_updateDkp, countP_key_eq_one users uid hnd hm]
  simp

theorem keys_ensureUser (users : List (Nat × Int)) (uid : Nat) :
    uid ∈ (ensureUser users uid).map Prod.fst := by
  unfold ensureUser
  by_cases h : uid ∈ users.map Prod.fst
  · simp only [if_pos h]
    exact h
  · simp [h]

theorem keys_creditEach (ls : List Bid) (us : List (Nat × Int)) (share : Int) :
    (creditEach us ls share).map Prod.fst = us.map Prod.fst := by
  induction ls generalizing us with
  | nil => rfl
  | cons b t ih =>
    rw [creditEach, ih, keys_updateDkp]

theorem getDkp_creditEach_notin (ls : List Bid) (us : List (Nat × Int)) (share : Int)
    (x : Nat) (h : ∀ b ∈ ls, b.userId ≠ x) :
    getDkp (creditEach us ls share) x = getDkp us x := by
  induction ls generalizing us with
  | nil => rfl
  | cons b t ih =>
    rw [creditEach, ih _ fun c hc => h c (List.mem_cons_of_mem _ hc),
      getDkp_updateDkp_ne]
    exact fun e => h b (List.mem_cons_self _ _) e.symm

theorem getDkp_creditEach_once (ls : List Bid) (us : List (Nat × Int)) (share : Int)
    (x : Nat) (hnd : (ls.map Bid.userId).Nodup)
    (hpres : x ∈ us.map Prod.fst) (hx : x ∈ ls.map Bid.userId) :
    getDkp (creditEach us ls share) x = getDkp us x + share := by
  induction ls generalizing us with
  | nil => simp at hx
  | cons b t ih =>
    simp only [List.map_cons, List.nodup_cons] at hnd
    simp only [List.map_cons, List.mem_cons] at hx
    rw [creditEach]
    rcases hx with hx | hx
    · have hnot : ∀ c ∈ t, c.userId ≠ b.userId := by
        intro c hc e
        exact hnd.1 (e ▸ List.mem_map.mpr ⟨c, hc, rfl⟩)
      rw [hx] at hpres ⊢
      rw [getDkp_creditEach_notin t _ share b.userId hnot,
        getDkp_updateDkp_self us b.userId share hpres]
    · rw [ih _ hnd.2 _ hx]
      · rw [getDkp_updateDkp_ne]
        intro e
        exact hnd.1 (e ▸ hx)
      · rw [keys_updateDkp]
        exact hpres

theorem totalDkp_creditEach (ls : List Bid) (us : List (Nat × Int)) (share : Int)
    (hnd : (us.map Prod.fst).Nodup) (hpres : ∀ b ∈ ls, b.userId ∈ us.map Prod.fst) :
    totalDkp (creditEach us ls share) = totalDkp us + share * ls.length := by
  induction ls generalizing us with
  | nil => simp [creditEach]
  | cons b t ih =>
    rw [creditEach, ih]
    · rw [totalDkp_updateDkp_mem us b.userId share hnd
        (hpres b (List.mem_cons_self _ _))]
      simp only [List.length_cons]
      push_cast
      ring
    · rw [keys_updateDkp]
      exact hnd
    · intro c hc
      rw [keys_updateDkp]
      exact hpres c (List.mem_cons_of_mem _ hc)

/-! ### Zero-sum settlement lemmas -/

theorem filter_ne_head (win : Bid) (rest : List Bid)
    (hnd : ((win :: rest).map Bid.userId).Nodup) :
    (win :: rest).filter (fun b => b.userId ≠ win.userId) = rest := by
  rw [List.map_cons, List.nodup_cons] at hnd
  rw [List.filter_cons]
  have h1 : (decide (win.userId ≠ win.userId)) = false := by simp
  rw [h1]
  simp only [Bool.false_eq_true, if_false]
  rw [List.filter_eq_self]
  intro b hb
  simp only [decide_eq_true_eq]
  intro e
  exact hnd.1 (e ▸ List.mem_map.mpr ⟨b, hb, rfl⟩)

theorem resolveSorted_zerosum_spec (a : Auction) (hz : a.style = .zerosum) :
    ∀ (l : List Bid) (users : List (Nat × Int)) (awards : List Award),
      (users.map Prod.fst).Nodup →
      (∀ b ∈ l, b.userId ∈ users.map Prod.fst) →
      (l.map Bid.userId).Nodup →
      ∀ (w A : Nat) (red : Option (Nat × Nat)),
        (resolveSorted a users awards l).msg = .settled w A red →
        ((∀ b ∈ (resolveSorted a users awards l).bids.filter (fun b => b.userId ≠ w),
            getDkp (resolveSorted a users awards l).users b.userId
              = getDkp users b.userId
                + ((A / ((resolveSorted a users awards l).bids.filter
                      (fun b => b.userId ≠ w)).length : Nat) : Int))
         ∧ getDkp (resolveSorted a users awards l).users w = getDkp users w - (A : Int)
         ∧ totalDkp (resolveSorted a users awards l).users ≤ totalDkp users) := by
  intro l
  induction l with
  | nil =>
    intro users awards _ _ _ w A red hmsg
    exact absurd hmsg (by simp [resolveSorted])
  | cons win rest ih =>
    intro users awards hund hpres hbnd w A red hmsg
    by_cases haff : getDkp users win.userId < (amtOf a win : Int)
    · have heq : resolveSorted a users awards (win :: rest)
          = resolveSorted a users awards rest := by
        simp only [resolveSorted]
        rw [if_pos haff]
      rw [heq] at hmsg ⊢
      have hbnd2 : (rest.map Bid.userId).Nodup := by
        rw [List.map_cons, List.nodup_cons] at hbnd
        exact hbnd.2
      exact ih users awards hund (fun b hb => hpres b (List.mem_cons_of_mem _ hb))
        hbnd2 w A red hmsg
    · have heq : resolveSorted a users awards (win :: rest)
          = settleWin a users awards win rest := by
        simp only [resolveSorted]
        rw [if_neg haff]
      rw [heq] at hmsg ⊢
      have hbnd' := hbnd
      rw [List.map_cons, List.nodup_cons] at hbnd'
      have hlos : (win :: rest).filter (fun b => b.userId ≠ win.userId) = rest :=
        filter_ne_head win rest hbnd
      have hwinmem : win.userId ∈ users.map Prod.fst :=
        hpres win (List.mem_cons_self _ _)
      simp only [settleWin] at hmsg
      rw [Msg.settled.injEq] at hmsg
      obtain ⟨hw, hA, -⟩ := hmsg
      subst hw
      subst hA
      simp only [settleWin]
      rw [hlos, if_pos hz]
      by_cases hcred : rest.length ≠ 0 ∧ amtOf a win / rest.length > 0
      · rw [if_pos hcred]
        refine ⟨?_, ?_, ?_⟩
        · intro b hb
          have hneb : b.userId ≠ win.userId := fun e =>
            hbnd'.1 (e ▸ List.mem_map.mpr ⟨b, hb, rfl⟩)
          rw [getDkp_creditEach_once rest _ _ b.userId hbnd'.2
              (by rw [keys_updateDkp]
                  exact hpres b (List.mem_cons_of_mem _ hb))
              (List.mem_map.mpr ⟨b, hb, rfl⟩),
            getDkp_updateDkp_ne _ _ _ _ hneb]
        · rw [getDkp_creditEach_notin rest _ _ win.userId
              (fun c hc e => hbnd'.1 (e ▸ List.mem_map.mpr ⟨c, hc, rfl⟩)),
            getDkp_updateDkp_self users win.userId _ hwinmem]
          ring
        · rw [totalDkp_creditEach rest _ _
              (by rw [keys_updateDkp]; exact hund)
              (fun c hc => by
                rw [keys_updateDkp]
                exact hpres c (List.mem_cons_of_mem _ hc)),
            totalDkp_updateDkp_mem users win.userId _ hund hwinmem]
          have hmul : ((amtOf a win / rest.length : Nat) : Int) * (rest.length : Int)
              ≤ (amtOf a win : Int) := by
            exact_mod_cast Nat.div_mul_le_self (amtOf a win) rest.length
          linarith
      · rw [if_neg hcred]
        push_neg at hcred
        refine ⟨?_, ?_, ?_⟩
        · intro b hb
          have hneb : b.userId ≠ win.userId := fun e =>
            hbnd'.1 (e ▸ List.mem_map.mpr ⟨b, hb, rfl⟩)
          have hn0 : rest.length ≠ 0 := by
            intro e
            rw [List.length_eq_zero] at e
            subst e
            simp at hb
          have hsh : amtOf a win / rest.length = 0 := Nat.le_zero.mp (hcred hn0)
          rw [getDkp_updateDkp_ne _ _ _ _ hneb, hsh]
          simp
        · rw [getDkp_updateDkp_self users win.userId _ hwinmem]
          ring
        · rw [totalDkp_updateDkp_mem users win.userId _ hund hwinmem]
          have : (0 : Int) ≤ (amtOf a win : Int) := Int.natCast_nonneg _
          linarith

/-! ### Claim theorems -/

/-- C1: in settlement, if the highest-ranked candidate bid's re-read balance
is less than the settlement amount, that bid is discarded entirely and the
algorithm re-runs over the remaining bids; and on the spec's concrete
scenario — sealed contest, `minBid=50, increment=10`, bids A:100, B:80,
C:120 with C unable to pay — settlement closes the contest with winner A
at 100 points, C's bid deleted and never kept as a lower candidate. -/
theorem C1_discard_and_retry :
    (∀ (a : Auction) (users : List (Nat × Int)) (awards : List Award)
       (win : Bid) (rest : List Bid),
       getDkp users win.userId < (amtOf a win : Int) →
       resolveSorted a users awards (win :: rest) = resolveSorted a users awards rest)
    ∧ resolve_auction exC1
        = (⟨⟨1, 50, 10, .blind, .closed⟩, [⟨1, 1, 100, 1⟩, ⟨2, 2, 80, 2⟩],
            [(1, 0), (2, 80), (3, 0)], [⟨1, 1, 100⟩], 4⟩,
           .settled 1 100 none) := by
  constructor
  · intro a users awards win rest h
    simp only [resolveSorted]
    rw [if_pos h]
  · decide

/-- C1 witness: the discard step applied at a concrete unaffordable head
bid. -/
theorem C1_discard_and_retry_witness :
    resolveSorted ⟨1, 50, 10, .blind, .«open»⟩ [(1, 0)] [] [⟨1, 1, 60, 0⟩]
      = resolveSorted ⟨1, 50, 10, .blind, .«open»⟩ [(1, 0)] [] [] :=
  C1_discard_and_retry.1 ⟨1, 50, 10, .blind, .«open»⟩ [(1, 0)] [] ⟨1, 1, 60, 0⟩ []
    (by decide)

/-- C8 counterexample: resolving an already-closed contest replies with the
bare status message, not with the existing settlement record (winner 7 at
100) the claim says it returns. -/
theorem C8_no_record_reported_cex :
    (resolve_auction exC8).2 = .already .closed
    ∧ ¬ reportsRecord (resolve_auction exC8).2 ⟨1, 7, 100⟩ := by
  refine ⟨by decide, ?_⟩
  rintro ⟨r, h⟩
  rw [show (resolve_auction exC8).2 = .already .closed from by decide] at h
  exact Msg.noConfusion h

/-- C8 amended: invoking close-settlement on a contest whose status is
already closed or cancelled is a no-op — the state (ledger included) is
returned unchanged, never a double debit — and the reply names the existing
terminal status rather than erroring; it does not return the
SettlementRecord itself. -/
theorem C8_close_terminal_noop (s : AState) (h : s.auction.status ≠ .«open») :
    resolve_auction s = (s, .already s.auction.status) := by
  simp [resolve_auction, h]

/-- C8 witness: the no-op at the concrete closed contest. -/
theorem C8_close_terminal_noop_witness :
    resolve_auction exC8 = (exC8, .already exC8.auction.status) :=
  C8_close_terminal_noop exC8 (by decide)

/-- C9 counterexample: on two users with equal balances whose physical row
order is the reverse of their arrival order, the leaderboard query (which
has no secondary sort key) lists the later-created participant first,
violating the claimed arrival-order tie-break. -/
theorem C9_tiebreak_cex : ¬ arrivalTieBreak (leaderboard exC9) := by
  decide

/-- C9 amended: the leaderboard returns the top 10 participants by balance
descending; the order among equal balances is unspecified (the query sorts
by `dkp DESC` only), realised as the stable sort over physical row order. -/
theorem C9_leaderboard_sorted (rows : List UserRow) :
    leaderboard rows = (List.insertionSort rowLE rows).take 10
    ∧ (List.insertionSort rowLE rows).Perm rows
    ∧ (List.insertionSort rowLE rows).Sorted rowLE
    ∧ (leaderboard rows).length = min 10 rows.length := by
  refine ⟨rfl, List.perm_insertionSort _ _, List.sorted_insertionSort _ _, ?_⟩
  simp [leaderboard, List.length_take]

/-- C10: `redeem`'s failure checks have a fixed precedence — a missing or
inactive pin reports "invalid or revoked" regardless of expiry, and an
active expired pin reports "expired" regardless of any existing redemption
(so revoked-and-expired sees InvalidCode and expired-and-already-redeemed
sees Expired, never AlreadyRedeemed). -/
theorem C10_redeem_precedence :
    (∀ (s : RState) (uid : Nat) (rawCode : String) (now : Nat),
       s.pins.find? (fun p => p.code == pyUpper (pyStrip rawCode)) = none →
       (redeem s uid rawCode now).2 = .invalidOrRevoked)
    ∧ (∀ (s : RState) (uid : Nat) (rawCode : String) (now : Nat) (p : Pin),
       s.pins.find? (fun p => p.code == pyUpper (pyStrip rawCode)) = some p →
       p.active = false →
       (redeem s uid rawCode now).2 = .invalidOrRevoked)
    ∧ (∀ (s : RState) (uid : Nat) (rawCode : String) (now : Nat) (p : Pin),
       s.pins.find? (fun p => p.code == pyUpper (pyStrip rawCode)) = some p →
       p.active = true →
       p.expiresAt < now →
       (redeem s uid rawCode now).2 = .expired) := by
  refine ⟨?_, ?_, ?_⟩
  · intro s uid rawCode now hfind
    simp [redeem, redeemChecks, hfind]
  · intro s uid rawCode now p hfind hact
    simp [redeem, redeemChecks, hfind, hact]
  · intro s uid rawCode now p hfind hact hexp
    simp [redeem, redeemChecks, hfind, hact, hexp]

/-- C10 witness: the precedence at concrete pins — "AAA" revoked and
expired reports invalid, "BBB" active, expired and already redeemed
reports expired. -/
theorem C10_redeem_precedence_witness :
    (redeem exC10 7 "aaa" 50).2 = .invalidOrRevoked
    ∧ (redeem exC10 7 "bbb" 50).2 = .expired :=
  ⟨C10_redeem_precedence.2.1 exC10 7 "aaa" 50 ⟨1, "AAA", 10, 5, false⟩
      (by decide) rfl,
   C10_redeem_precedence.2.2 exC10 7 "bbb" 50 ⟨2, "BBB", 10, 5, true⟩
      (by decide) rfl (by decide)⟩

/-- C2 counterexample: in the race of two simultaneous redemptions of pin
"ABC" by user 7, the attempt that loses the uniqueness race reports the
generic failure ("Something went wrong. Try again."), not AlreadyRedeemed
as the claim states. -/
theorem C2_race_reports_generic_error_cex :
    (redeemRace exC2 7 " abc " 50).2.1 = .redeemed 10
    ∧ (redeemRace exC2 7 " abc " 50).2.2 = .genericError
    ∧ (redeemRace exC2 7 " abc " 50).2.2 ≠ .alreadyRedeemed := by
  decide

/-- C2 amended: for two simultaneous redeem attempts by the same participant
on the same valid, unredeemed code, exactly one succeeds with a credit; the
loser of the race on the Redemption uniqueness constraint has its credit
rolled back and reports the generic failure message (not AlreadyRedeemed),
so the final balance increases by exactly one code-value and exactly one
redemption row exists. -/
theorem C2_race_single_credit (s : RState) (uid : Nat) (rawCode : String) (now : Nat)
    (p : Pin)
    (hchk : redeemChecks { s with users := ensureUser s.users uid }
              (pyUpper (pyStrip rawCode)) now = .ok p)
    (hnew : s.redemptions.any (fun r => r.1 = p.id ∧ r.2 = uid) = false) :
    (redeemRace s uid rawCode now).2.1 = .redeemed p.points
    ∧ (redeemRace s uid rawCode now).2.2 = .genericError
    ∧ getDkp (redeemRace s uid rawCode now).1.users uid
        = getDkp (ensureUser s.users uid) uid + (p.points : Int)
    ∧ (redeemRace s uid rawCode now).1.redemptions = s.redemptions ++ [(p.id, uid)] := by
  have hkey := keys_ensureUser s.users uid
  have hnew' : (p.id, uid) ∉ s.redemptions := by
    simp only [List.any_eq_false, decide_eq_true_eq] at hnew
    intro hmem
    exact hnew _ hmem ⟨rfl, rfl⟩
  simp only [redeemRace, hchk]
  simp [redeemTxn, hnew', getDkp_updateDkp_self _ _ _ hkey]

/-- C2 witness: the race at the concrete state `exC2`. -/
theorem C2_race_single_credit_witness :
    (redeemRace exC2 7 " abc " 50).2.1 = .redeemed 10
    ∧ (redeemRace exC2 7 " abc " 50).2.2 = .genericError
    ∧ getDkp (redeemRace exC2 7 " abc " 50).1.users 7
        = getDkp (ensureUser exC2.users 7) 7 + (10 : Int)
    ∧ (redeemRace exC2 7 " abc " 50).1.redemptions = exC2.redemptions ++ [(1, 7)] :=
  C2_race_single_credit exC2 7 " abc " 50 ⟨1, "ABC", 10, 100, true⟩ rfl rfl

/-- C6 counterexample: issuing a pin against the event type "raid", which is
inactive, succeeds with the category's default points instead of failing
with UnknownCategory as the claim states. -/
theorem C6_inactive_category_cex :
    (∀ et ∈ exC6ets, et.active = false)
    ∧ (pin_create exC6ets [] 1 "raid" 5 none none "ZZZ" 0).2 = .created "ZZZ" 10 5 := by
  decide

/-- C6 amended: `/pin create` fails with "event type not found" exactly when
no `event_types` row matches the name (the `active` flag is not consulted);
on success the stored pin expires at issue time plus the duration and its
point value is the override when supplied, else the category default. -/
theorem C6_pin_create_spec :
    (∀ (ets : List EventType) (pins : List Pin) (nId : Nat) (name : String)
       (dur : Nat) (mc : Option String) (po : Option Nat) (ac : String) (now : Nat),
       ets.find? (fun et => et.name == pyLower name || et.name == name) = none →
       pin_create ets pins nId name dur mc po ac now = (pins, .eventTypeNotFound))
    ∧ (∀ (ets : List EventType) (pins : List Pin) (nId : Nat) (name : String)
       (dur : Nat) (mc : Option String) (po : Option Nat) (ac : String) (now : Nat)
       (et : EventType),
       ets.find? (fun et => et.name == pyLower name || et.name == name) = some et →
       pins.any (fun p => p.code == pinCodeOf mc ac) = false →
       pin_create ets pins nId name dur mc po ac now
         = (pins ++ [⟨nId, pinCodeOf mc ac, pointsOf po et, now + dur, true⟩],
            .created (pinCodeOf mc ac) (pointsOf po et) (now + dur))) := by
  constructor
  · intro ets pins nId name dur mc po ac now hfind
    simp [pin_create, hfind]
  · intro ets pins nId name dur mc po ac now et hfind hdup
    simp [pin_create, hfind, hdup]

/-- C6 witness: a successful issuance against the (inactive) event type,
with default points and expiry `now + duration`. -/
theorem C6_pin_create_spec_witness :
    pin_create exC6ets [] 1 "raid" 5 none none "ZZZ" 0
      = ([] ++ [⟨1, pinCodeOf none "ZZZ", pointsOf none ⟨1, "raid", 10, false⟩, 0 + 5, true⟩],
         .created (pinCodeOf none "ZZZ") (pointsOf none ⟨1, "raid", 10, false⟩) (0 + 5)) :=
  C6_pin_create_spec.2 exC6ets [] 1 "raid" 5 none none "ZZZ" 0 ⟨1, "raid", 10, false⟩
    (by decide) (by decide)

/-- C7: the discard-and-retry recursion of settlement terminates for every
finite bid set — fuel bounded by the number of bids plus one always
suffices, each retry consuming one bid — and a contest whose bids are all
unaffordable settles with "no bids" semantics: it is marked closed, the
bids are all discarded, and no settlement record is written and no balance
changes. -/
theorem C7_settlement_terminates :
    (∀ (a : Auction) (users : List (Nat × Int)) (awards : List Award) (l : List Bid),
       resolveSortedFuel a users awards (l.length + 1) l
         = some (resolveSorted a users awards l))
    ∧ (∀ s : AState, s.auction.status = .«open» →
       (∀ b ∈ s.bids, getDkp s.users b.userId < (amtOf s.auction b : Int)) →
       resolve_auction s
         = (⟨{ s.auction with status := .closed }, [], s.users, s.awards, s.nextBidId⟩,
            .noBids)) := by
  constructor
  · intro a users awards l
    induction l with
    | nil => rfl
    | cons win rest ih =>
      by_cases h : getDkp users win.userId < (amtOf a win : Int)
      · simp only [List.length_cons, resolveSortedFuel, resolveSorted, if_pos h]
        exact ih
      · simp only [List.length_cons, resolveSortedFuel, resolveSorted, if_neg h]
  · intro s hopen hall
    have key : ∀ l, (∀ b ∈ l, getDkp s.users b.userId < (amtOf s.auction b : Int)) →
        resolveSorted s.auction s.users s.awards l
          = ⟨.closed, [], s.users, s.awards, .noBids⟩ := by
      intro l
      induction l with
      | nil => intro _; rfl
      | cons win rest ih =>
        intro hall2
        simp only [resolveSorted]
        rw [if_pos (hall2 win (List.mem_cons_self _ _))]
        exact ih fun b hb => hall2 b (List.mem_cons_of_mem _ hb)
    have hmem : ∀ b ∈ sortBids s.bids,
        getDkp s.users b.userId < (amtOf s.auction b : Int) :=
      fun b hb => hall b ((List.perm_insertionSort bidLE s.bids).mem_iff.mp hb)
    simp [resolve_auction, hopen, key _ hmem]

/-- C7 witness: the fuel bound at a singleton bid list, and the concrete
all-unaffordable contest `exC7` closing with no record. -/
theorem C7_settlement_terminates_witness :
    resolveSortedFuel ⟨1, 50, 10, .blind, .«open»⟩ [(1, 0)] [] 2 [⟨1, 1, 60, 0⟩]
      = some (resolveSorted ⟨1, 50, 10, .blind, .«open»⟩ [(1, 0)] [] [⟨1, 1, 60, 0⟩])
    ∧ resolve_auction exC7
        = (⟨{ exC7.auction with status := .closed }, [], exC7.users, exC7.awards,
            exC7.nextBidId⟩, .noBids) :=
  ⟨C7_settlement_terminates.1 ⟨1, 50, 10, .blind, .«open»⟩ [(1, 0)] [] [⟨1, 1, 60, 0⟩],
   C7_settlement_terminates.2 exC7 rfl (by decide)⟩

/-- C4 counterexample: on the already-claimed fixed-price contest `exC4`, a
subsequent claim by user 2 (who cannot afford `minBid=30`) is rejected as
insufficient funds, not as "already claimed" — the balance check runs
first, refuting the claim that every subsequent claim while a Bid exists is
rejected as already claimed. -/
theorem C4_fixed_subsequent_claim_cex :
    (bid exC4 2 99 5).2 = .insufficient 30
    ∧ (bid exC4 2 99 5).2 ≠ .alreadyClaimed := by
  decide

/-- C4 amended: for a fixed-price contest the bid amount is ignored; the
first claim by a participant with balance ≥ `minBid`, while no Bid exists,
inserts a Bid at exactly `minBid` and immediately settles at exactly
`minBid`; a subsequent claim while a Bid exists is rejected as already
claimed when the claimant's balance covers `minBid`, and as insufficient
funds otherwise (the balance check precedes the already-claimed check). -/
theorem C4_fixed_price_claims :
    (∀ (s : AState) (uid amt amt' now : Nat), s.auction.style = .fixed →
       bid s uid amt now = bid s uid amt' now)
    ∧ (∀ (s : AState) (uid amt now : Nat),
       s.auction.status = .«open» → s.auction.style = .fixed → s.bids = [] →
       (s.auction.minBid : Int) ≤ getDkp (ensureUser s.users uid) uid →
       (s.awards.any (fun aw => aw.auctionId = s.auction.id)) = false →
       bid s uid amt now
         = (⟨{ s.auction with status := .closed },
             [⟨s.nextBidId, uid, s.auction.minBid, now⟩],
             updateDkp (ensureUser s.users uid) uid (-(s.auction.minBid : Int)),
             s.awards ++ [⟨s.auction.id, uid, s.auction.minBid⟩],
             s.nextBidId + 1⟩,
            .claimed (.settled uid s.auction.minBid none)))
    ∧ (∀ (s : AState) (uid amt now : Nat),
       s.auction.status = .«open» → s.auction.style = .fixed → s.bids ≠ [] →
       (s.auction.minBid : Int) ≤ getDkp (ensureUser s.users uid) uid →
       bid s uid amt now = ({ s with users := ensureUser s.users uid }, .alreadyClaimed))
    ∧ (∀ (s : AState) (uid amt now : Nat),
       s.auction.status = .«open» → s.auction.style = .fixed →
       getDkp (ensureUser s.users uid) uid < (s.auction.minBid : Int) →
       bid s uid amt now
         = ({ s with users := ensureUser s.users uid }, .insufficient s.auction.minBid)) := by
  refine ⟨?_, ?_, ?_, ?_⟩
  · intro s uid amt amt' now h
    simp [bid, h]
  · intro s uid amt now hopen hfx hbids hbal haw
    have hnlt : ¬ (getDkp (ensureUser s.users uid) uid < (s.auction.minBid : Int)) :=
      not_lt.mpr hbal
    simp [bid, resolve_auction, resolveSorted, settleWin, sortBids, amtOf,
      hopen, hfx, hbids, hnlt, haw]
  · intro s uid amt now hopen hfx hbids hbal
    have hnlt : ¬ (getDkp (ensureUser s.users uid) uid < (s.auction.minBid : Int)) :=
      not_lt.mpr hbal
    simp [bid, hopen, hfx, hnlt, List.length_pos, hbids]
  · intro s uid amt now hopen hfx hbal
    simp [bid, hopen, hfx, hbal]

/-- C4 witness: user 2 claims the unclaimed fixed-price contest `exC4b`
(`minBid=30`), which settles immediately at 30. -/
theorem C4_fixed_price_claims_witness :
    bid exC4b 2 99 5
      = (⟨{ exC4b.auction with status := .closed },
          [⟨exC4b.nextBidId, 2, exC4b.auction.minBid, 5⟩],
          updateDkp (ensureUser exC4b.users 2) 2 (-(exC4b.auction.minBid : Int)),
          exC4b.awards ++ [⟨exC4b.auction.id, 2, exC4b.auction.minBid⟩],
          exC4b.nextBidId + 1⟩,
         .claimed (.settled 2 exC4b.auction.minBid none)) :=
  C4_fixed_price_claims.2.1 exC4b 2 99 5 rfl rfl rfl (by decide) (by decide)

/-- C5: placing a bid on an open sealed (blind) or zero-sum contest is
rejected as too low unless the amount is at least `minBid` and on an
increment step; rejected for insufficient funds when the amount exceeds the
participant's current balance; and otherwise upserts the participant's bid,
a later bid replacing the participant's earlier one (same row count, the
participant's row carrying the new amount) and leaving other bids
untouched. -/
theorem C5_placeBid_validation (s : AState) (uid amount now : Nat)
    (hopen : s.auction.status = .«open»)
    (hstyle : s.auction.style = .blind ∨ s.auction.style = .zerosum) :
    (amount < s.auction.minBid ∨ (amount - s.auction.minBid) % s.auction.increment ≠ 0 →
       bid s uid amount now
         = ({ s with users := ensureUser s.users uid },
            .bidTooLow s.auction.minBid s.auction.increment))
    ∧ (s.auction.minBid ≤ amount → (amount - s.auction.minBid) % s.auction.increment = 0 →
       getDkp (ensureUser s.users uid) uid < (amount : Int) →
       bid s uid amount now
         = ({ s with users := ensureUser s.users uid }, .insufficientFunds))
    ∧ (s.auction.minBid ≤ amount → (amount - s.auction.minBid) % s.auction.increment = 0 →
       (amount : Int) ≤ getDkp (ensureUser s.users uid) uid →
       bid s uid amount now
         = ({ s with
               users := ensureUser s.users uid,
               bids := upsertBid s.bids s.nextBidId uid amount now,
               nextBidId := if s.bids.any (fun b => b.userId = uid) then s.nextBidId
                            else s.nextBidId + 1 },
            .accepted))
    ∧ (∀ (bids : List Bid) (newId : Nat),
       ((bids.any (fun b => b.userId = uid)) = true →
          (upsertBid bids newId uid amount now).length = bids.length)
       ∧ (∀ b ∈ upsertBid bids newId uid amount now, b.userId = uid →
            b.amount = amount ∧ b.createdAt = now)
       ∧ (∃ b ∈ upsertBid bids newId uid amount now, b.userId = uid)
       ∧ (∀ b ∈ upsertBid bids newId uid amount now, b.userId ≠ uid → b ∈ bids)) := by
  refine ⟨?_, ?_, ?_, ?_⟩
  · intro hcond
    rcases hstyle with h | h <;>
      · simp [bid, hopen, h]
        intro h1 h2
        rcases hcond with hc | hc
        · exact absurd h1 (not_le.mpr hc)
        · exact absurd h2 hc
  · intro h1 h2 h3
    rcases hstyle with h | h <;>
      · have hcond : ¬ (amount < s.auction.minBid
            ∨ (amount - s.auction.minBid) % s.auction.increment ≠ 0) := by
          push_neg
          exact ⟨h1, h2⟩
        simp [bid, hopen, h, hcond, h3]
  · intro h1 h2 h3
    rcases hstyle with h | h <;>
      · have hcond : ¬ (amount < s.auction.minBid
            ∨ (amount - s.auction.minBid) % s.auction.increment ≠ 0) := by
          push_neg
          exact ⟨h1, h2⟩
        have hnlt : ¬ (getDkp (ensureUser s.users uid) uid < (amount : Int)) :=
          not_lt.mpr h3
        simp [bid, hopen, h, hcond, hnlt]
  · intro bids newId
    by_cases hex : (bids.any (fun b => b.userId = uid)) = true
    · refine ⟨fun _ => ?_, ?_, ?_, ?_⟩
      · rw [upsertBid, if_pos hex, List.length_map]
      · intro b hb hbu
        rw [upsertBid, if_pos hex] at hb
        rcases List.mem_map.mp hb with ⟨c, hc, rfl⟩
        by_cases hcu : c.userId = uid
        · simp [hcu]
        · simp [hcu] at hbu
      · rcases List.any_eq_true.mp hex with ⟨c, hc, hcu⟩
        have hcu' : c.userId = uid := by simpa using hcu
        refine ⟨{ c with amount := amount, createdAt := now }, ?_, hcu'⟩
        rw [upsertBid, if_pos hex]
        exact List.mem_map.mpr ⟨c, hc, by simp [hcu']⟩
      · intro b hb hne
        rw [upsertBid, if_pos hex] at hb
        rcases List.mem_map.mp hb with ⟨c, hc, rfl⟩
        by_cases hcu : c.userId = uid
        · simp [hcu] at hne
        · simpa [hcu] using hc
    · have hexf : (bids.any (fun b => b.userId = uid)) = false :=
        Bool.not_eq_true _ ▸ eq_false_of_ne_true hex
      refine ⟨fun hveq => absurd hveq hex, ?_, ?_, ?_⟩
      · intro b hb hbu
        rw [upsertBid, if_neg (by simp [hexf])] at hb
        rcases List.mem_append.mp hb with hb | hb
        · exfalso
          have := List.any_eq_false.mp hexf b hb
          simp [hbu] at this
        · have : b = ⟨newId, uid, amount, now⟩ := by simpa using hb
          subst this
          exact ⟨rfl, rfl⟩
      · refine ⟨⟨newId, uid, amount, now⟩, ?_, rfl⟩
        rw [upsertBid, if_neg (by simp [hexf])]
        exact List.mem_append_right _ (by simp)
      · intro b hb hne
        rw [upsertBid, if_neg (by simp [hexf])] at hb
        rcases List.mem_append.mp hb with hb | hb
        · exact hb
        · exfalso
          have : b = ⟨newId, uid, amount, now⟩ := by simpa using hb
          subst this
          exact hne rfl

/-- C5 witness: user 3's repeat bid of 80 on `exC5` replaces their earlier
bid of 60 in place. -/
theorem C5_placeBid_validation_witness :
    bid exC5 3 80 7
      = ({ exC5 with
            users := ensureUser exC5.users 3,
            bids := upsertBid exC5.bids exC5.nextBidId 3 80 7,
            nextBidId := if exC5.bids.any (fun b => b.userId = 3) then exC5.nextBidId
                         else exC5.nextBidId + 1 },
         .accepted) :=
  (C5_placeBid_validation exC5 3 80 7 rfl (Or.inl rfl)).2.2.1 (by decide) (by decide)
    (by decide)

/-- C3: for every contest settled under zero-sum style — on a well-formed
database state (unique user rows, one bid per participant, every bidder
having a user row) — with winner `w` charged amount `A`, each of the `n`
losing bidders still on the contest is credited exactly `⌊A / n⌋`, the
winner is debited exactly `A`, the division remainder is not distributed,
and hence the sum of all balance deltas of the settlement (the change of
total currency) is ≤ 0. -/
theorem C3_zerosum_deltas (s s' : AState) (w A : Nat) (red : Option (Nat × Nat))
    (hund : (s.users.map Prod.fst).Nodup)
    (hpres : ∀ b ∈ s.bids, b.userId ∈ s.users.map Prod.fst)
    (hbnd : (s.bids.map Bid.userId).Nodup)
    (hz : s.auction.style = .zerosum)
    (hres : resolve_auction s = (s', .settled w A red)) :
    (∀ b ∈ s'.bids.filter (fun b => b.userId ≠ w),
        getDkp s'.users b.userId
          = getDkp s.users b.userId
            + ((A / (s'.bids.filter (fun b => b.userId ≠ w)).length : Nat) : Int))
    ∧ getDkp s'.users w = getDkp s.users w - (A : Int)
    ∧ totalDkp s'.users ≤ totalDkp s.users := by
  by_cases hst : s.auction.status = .«open»
  · have hres' : resolve_auction s
        = (⟨{ s.auction with
                status := (resolveSorted s.auction s.users s.awards (sortBids s.bids)).status },
            (resolveSorted s.auction s.users s.awards (sortBids s.bids)).bids,
            (resolveSorted s.auction s.users s.awards (sortBids s.bids)).users,
            (resolveSorted s.auction s.users s.awards (sortBids s.bids)).awards,
            s.nextBidId⟩,
           (resolveSorted s.auction s.users s.awards (sortBids s.bids)).msg) := by
      simp [resolve_auction, hst]
    rw [hres'] at hres
    rw [Prod.mk.injEq] at hres
    obtain ⟨hs', hmsg⟩ := hres
    have hpres' : ∀ b ∈ sortBids s.bids, b.userId ∈ s.users.map Prod.fst :=
      fun b hb => hpres b ((List.perm_insertionSort bidLE s.bids).mem_iff.mp hb)
    have hbnd2 : ((sortBids s.bids).map Bid.userId).Nodup :=
      (((List.perm_insertionSort bidLE s.bids).map Bid.userId).nodup_iff).mpr hbnd
    have hout := resolveSorted_zerosum_spec s.auction hz (sortBids s.bids)
      s.users s.awards hund hpres' hbnd2 w A red hmsg
    rw [← hs']
    exact hout
  · have : resolve_auction s = (s, .already s.auction.status) := by
      simp [resolve_auction, hst]
    rw [this] at hres
    rw [Prod.mk.injEq] at hres
    exact absurd hres.2 (by simp)

/-- C3 witness: the zero-sum contest `exZS` — user 1 wins at 100, losers 2
and 3 each get the floor share 50, total currency unchanged. -/
theorem C3_zerosum_deltas_witness :
    (∀ b ∈ exZSout.bids.filter (fun b => b.userId ≠ 1),
        getDkp exZSout.users b.userId
          = getDkp exZS.users b.userId
            + ((100 / (exZSout.bids.filter (fun b => b.userId ≠ 1)).length : Nat) : Int))
    ∧ getDkp exZSout.users 1 = getDkp exZS.users 1 - (100 : Int)
    ∧ totalDkp exZSout.users ≤ totalDkp exZS.users :=
  C3_zerosum_deltas exZS exZSout 1 100 (some (50, 2)) (by decide) (by decide)
    (by decide) rfl (by decide)

end DKP
